import Mathlib

/-!
Verification of the subtitle-summarization tool `yts` (src/yts.py).

Strings are modelled as lists of characters (Python strings are sequences of
code points).  The cleaning transform `clean_vtt` (src/yts.py lines 56-80) is
embedded function by function: `splitlines`, `strip`, the line filter, the
tag-stripping regex substitution, the seen-set deduplication loop, and the
final space join.  The caller-level logic of `main` (lines 111-144) and
`summarize_with_claude` (lines 83-108) is embedded with the external
text-generation process abstracted as a function argument.
-/

namespace Yts

/-- Characters of a Lean string literal, used to transcribe Python string
literals from the source. -/
def chars (s : String) : List Char := s.data

/-- Whitespace as recognized by Python `str.strip` / `str.isspace`
(ASCII whitespace, the C0 separator block, NEL, NBSP and the Unicode
space category). -/
def isPySpace (c : Char) : Bool :=
  c == ' ' || c == '\t' || c == '\n' || c == '\r' || c == '\x0b' || c == '\x0c' ||
  c == '\x1c' || c == '\x1d' || c == '\x1e' || c == '\x1f' || c == '\x85' || c == '\xa0' ||
  c == ' ' || ((' ' ≤ c) && (c ≤ ' ')) || c == ' ' || c == ' ' ||
  c == ' ' || c == ' ' || c == '　'

/-- Line-boundary characters of Python `str.splitlines`. -/
def isLineBreak (c : Char) : Bool :=
  c == '\n' || c == '\r' || c == '\x0b' || c == '\x0c' || c == '\x1c' || c == '\x1d' ||
  c == '\x1e' || c == '\x85' || c == ' ' || c == ' '

/-- Worker for `splitlines`: `acc` holds the current line, reversed.
A `"\r\n"` pair counts as a single boundary; a final line without a trailing
boundary is kept; an empty input yields no lines. -/
def splitlinesAux : List Char → List Char → List (List Char)
  | [], acc => if acc = [] then [] else [acc.reverse]
  | [c], acc =>
    if isLineBreak c then [acc.reverse]
    else [(c :: acc).reverse]
  | c :: c2 :: rest, acc =>
    if c = '\r' then
      if c2 = '\n' then acc.reverse :: splitlinesAux rest []
      else acc.reverse :: splitlinesAux (c2 :: rest) []
    else if isLineBreak c then acc.reverse :: splitlinesAux (c2 :: rest) []
    else splitlinesAux (c2 :: rest) (c :: acc)

/-- Python `str.splitlines` (src/yts.py line 58: `vtt_text.splitlines()`). -/
def splitlines (l : List Char) : List (List Char) := splitlinesAux l []

/-- Python `str.lstrip()`. -/
def lstrip (l : List Char) : List Char := l.dropWhile isPySpace

/-- Python `str.rstrip()`. -/
def rstrip (l : List Char) : List Char := (l.reverse.dropWhile isPySpace).reverse

/-- Python `str.strip()` (both ends). -/
def strip (l : List Char) : List Char := rstrip (lstrip l)

/-- Worker for the regex substitution `re.sub(r"<[^>]+>", "", line)`
(src/yts.py line 75).  The second argument buffers a pending potential tag:
`some buf` means we have read `buf` (starting with a literal `'<'`) and not
yet decided whether it closes.  On `'>'`, a buffer longer than just `"<"`
is a complete match and is dropped; the bare buffer `"<"` means the text
`"<>"`, which the regex does not match (it needs one or more inner
characters), so both characters are emitted.  An unclosed buffer at the end
of input is emitted verbatim. -/
def stripTagsAux : List Char → Option (List Char) → List Char
  | [], none => []
  | [], some buf => buf
  | c :: rest, none =>
    if c = '<' then stripTagsAux rest (some ['<'])
    else c :: stripTagsAux rest none
  | c :: rest, some buf =>
    if c = '>' then
      if buf = ['<'] then '<' :: '>' :: stripTagsAux rest none
      else stripTagsAux rest none
    else stripTagsAux rest (some (buf ++ [c]))

/-- The regex substitution `re.sub(r"<[^>]+>", "", line)` from src/yts.py
line 75: every occurrence of `'<'`, one or more non-`'>'` characters, then
`'>'` is removed, scanning left to right. -/
def stripTags (l : List Char) : List Char := stripTagsAux l none

/-- Python `str.isdigit` restricted to ASCII decimal digits (the source only
ever meets ASCII cue numbers; non-ASCII digit code points are not modelled). -/
def pyIsdigit (l : List Char) : Bool := !l.isEmpty && l.all Char.isDigit

/-- Decidable substring test: `needle` occurs contiguously in `haystack`.
Models Python `"-->" in line`. -/
def containsSub (needle : List Char) : List Char → Bool
  | [] => needle.isEmpty
  | c :: t => needle.isPrefixOf (c :: t) || containsSub needle t

/-- The skip condition of the cleaning loop (src/yts.py lines 64-72): a
stripped line is discarded when it is empty, starts with `"WEBVTT"`,
`"Kind:"` or `"Language:"`, contains `"-->"`, starts with `"NOTE"`, or is a
bare cue number (`line[0:1].isdigit() and line.strip().isdigit()`). -/
def skipLine (line : List Char) : Bool :=
  line.isEmpty
  || (chars "WEBVTT").isPrefixOf line
  || (chars "Kind:").isPrefixOf line
  || (chars "Language:").isPrefixOf line
  || containsSub (chars "-->") line
  || (chars "NOTE").isPrefixOf line
  || (pyIsdigit (line.take 1) && pyIsdigit (strip line))

/-- The deduplicating loop of `clean_vtt` (src/yts.py lines 59-79): each raw
line is stripped; skipped lines are dropped; surviving lines are
tag-stripped and re-stripped; a non-empty result not in `seen` is kept and
added to `seen`. -/
def cleanLines (seen : List (List Char)) : List (List Char) → List (List Char)
  | [] => []
  | l :: ls =>
    let line := strip l
    if skipLine line then cleanLines seen ls
    else
      let line2 := strip (stripTags line)
      if line2 ≠ [] ∧ line2 ∉ seen then line2 :: cleanLines (line2 :: seen) ls
      else cleanLines seen ls

/-- Python `" ".join` (src/yts.py line 80). -/
def joinSpace : List (List Char) → List Char
  | [] => []
  | [l] => l
  | l :: ls => l ++ ' ' :: joinSpace ls

/-- The list of lines kept by `clean_vtt` for a document. -/
def cleanedOf (d : List Char) : List (List Char) := cleanLines [] (splitlines d)

/-- `clean_vtt` from src/yts.py lines 56-80: strip VTT timestamps/headers,
deduplicate lines, join with single spaces. -/
def clean_vtt (d : List Char) : List Char := joinSpace (cleanedOf d)

/-- The candidate lines of a document: the same per-line pipeline as
`cleanLines` (strip, filter, tag-strip, re-strip, drop empties) but without
the seen-set deduplication.  Used to state what "first occurrence" and
"order of appearance" mean for the dedup claims. -/
def candidateLines : List (List Char) → List (List Char)
  | [] => []
  | l :: ls =>
    let line := strip l
    if skipLine line then candidateLines ls
    else
      let line2 := strip (stripTags line)
      if line2 ≠ [] then line2 :: candidateLines ls
      else candidateLines ls

/-- Candidate lines of a whole document. -/
def candidatesOf (d : List Char) : List (List Char) := candidateLines (splitlines d)

/-- First-occurrence deduplication, stated recursively: keep the head,
delete its later duplicates, recurse.  This is the specification-side
notion the dedup loop of `clean_vtt` is compared against. -/
def keepFirsts : List (List Char) → List (List Char)
  | [] => []
  | x :: xs => x :: keepFirsts (xs.filter (fun y => y ≠ x))
termination_by l => l.length
decreasing_by
  simp only [List.length_cons]
  exact Nat.lt_succ_of_le (List.length_filter_le _ _)

/-! ## The caller-level pipeline (`main` and `summarize_with_claude`) -/

/-- Result of running the external text-generation process
(`subprocess.run(["claude", "-p", prompt, "--model", model], ...)`,
src/yts.py lines 101-104). -/
structure ProcResult where
  returncode : Int
  stdout : List Char
  stderr : List Char

/-- The prompt template of `summarize_with_claude` (src/yts.py lines
85-99), with the title and subtitles interpolated. -/
def buildPrompt (title subtitles : List Char) : List Char :=
  chars "You are summarizing a YouTube video.\n\nVideo title: \"" ++ title ++
  chars "\"\n\nBelow are the video\x27s subtitles/transcript. Based on these subtitles:\n\n1. First, write a short paragraph that directly answers or addresses the video\x27s title. Many YouTube titles are clickbait — cut through it and give the real answer upfront.\n\n2. Then, list the key points and takeaways from the video as bullet points.\n\nBe concise and factual. Only include information actually present in the subtitles.\n\n--- SUBTITLES ---\n" ++
  subtitles ++ chars "\n--- END SUBTITLES ---"

/-- `summarize_with_claude` (src/yts.py lines 83-108), with the external
process abstracted as `run : prompt → model → ProcResult`.  A non-zero exit
status is fatal: the diagnostic line printed to stderr before `sys.exit(1)`
is returned as the error value.  On exit status zero the process's stdout,
stripped, is returned. -/
def summarize_with_claude (title subtitles model : List Char)
    (run : List Char → List Char → ProcResult) : Except (List Char) (List Char) :=
  let prompt := buildPrompt title subtitles
  let result := run prompt model
  if result.returncode ≠ 0 then
    Except.error (chars "Error calling Claude: " ++ result.stderr)
  else
    Except.ok (strip result.stdout)

/-- Python `info.get(key, default)` on the metadata dictionary, modelled as
an association list. -/
def dictGetD (info : List (List Char × List Char)) (key dflt : List Char) : List Char :=
  match info.lookup key with
  | some v => v
  | none => dflt

/-- The truncation step of `main` (src/yts.py lines 136-138):
`subtitles[:max_chars]` when `len(subtitles) > max_chars` with
`max_chars = 100_000`, otherwise unchanged. -/
def truncatedSubs (s : List Char) : List Char :=
  if s.length > 100000 then s.take 100000 else s

/-- Diagnostic printed by the minimum-content gate (src/yts.py line 132). -/
def tooShortMsg : List Char :=
  chars "Subtitles too short or empty — video may not have usable captions."

/-- Notice printed when the transcript is truncated (src/yts.py line 139). -/
def truncMsg : List Char := chars "Transcript truncated to 100000 characters."

/-- Observable outcome of a run of `main` past subtitle extraction: the
process exit status, what is printed to stdout, the lines printed to
stderr, and — recording the one external call — the `(title, subtitles)`
pair handed to `summarize_with_claude`, or `none` when it is never
invoked. -/
structure MainOutcome where
  exitCode : Nat
  stdoutText : Option (List Char)
  stderrLines : List (List Char)
  summarizerCall : Option (List Char × List Char)

/-- The tail of `main` (src/yts.py lines 124-144), from the point where the
video metadata `info` and the raw subtitle document `rawVtt` are in hand:
title lookup with fallback, subtitle cleaning, the minimum-content gate
(`len < 50` exits 1), the 100000-character truncation with its notice, and
the summarization call whose non-zero exit status exits 1. -/
def mainRun (info : List (List Char × List Char)) (rawVtt model : List Char)
    (run : List Char → List Char → ProcResult) : MainOutcome :=
  let title := dictGetD info (chars "title") (chars "Unknown Title")
  let header := [chars "Title: " ++ title, chars "Extracting subtitles..."]
  let subtitles := clean_vtt rawVtt
  if subtitles.length < 50 then
    { exitCode := 1, stdoutText := none,
      stderrLines := header ++ [tooShortMsg], summarizerCall := none }
  else
    let subtitles2 := truncatedSubs subtitles
    let notices := if subtitles.length > 100000 then [truncMsg] else []
    let header2 := header ++ notices ++
      [chars "Summarizing with Claude (" ++ model ++ chars ")..."]
    match summarize_with_claude title subtitles2 model run with
    | Except.error msg =>
      { exitCode := 1, stdoutText := none,
        stderrLines := header2 ++ [msg], summarizerCall := some (title, subtitles2) }
    | Except.ok summary =>
      { exitCode := 0, stdoutText := some summary,
        stderrLines := header2, summarizerCall := some (title, subtitles2) }

/-- A concrete single-line document above the 50-character minimum, used to
instantiate gated theorems. -/
def wDoc : List Char :=
  chars "The quick brown fox jumps over the lazy dog repeatedly tonight"

/-- A stub external process that succeeds with padded output. -/
def stubOk : List Char → List Char → ProcResult :=
  fun _ _ => { returncode := 0, stdout := chars "  a summary  ", stderr := [] }

/-- A stub external process that fails with a rate-limit diagnostic. -/
def stubErr : List Char → List Char → ProcResult :=
  fun _ _ => { returncode := 1, stdout := [], stderr := chars "rate limited" }

/-! ## Library of lemmas about the embedded functions -/

/-- Spec scenario: a two-cue document whose duplicated, tagged dialogue
line cleans to a single untagged instance. -/
theorem clean_vtt_scenario :
    clean_vtt (chars "WEBVTT\n\n00:00:01.000 --> 00:00:02.000\nHello <c>world</c>\n\n00:00:02.000 --> 00:00:03.000\nHello <c>world</c>\n")
      = chars "Hello world" := by decide

/-- Correctness of the substring test against Mathlib's `List.IsInfix`. -/
theorem containsSub_iff (n : List Char) :
    ∀ (h : List Char), containsSub n h = true ↔ n <:+: h
  | [] => by
    constructor
    · intro hh
      have hn : n = [] := by simpa [containsSub, List.isEmpty_iff] using hh
      simp [hn]
    · intro hh
      have hn : n = [] := List.eq_nil_of_infix_nil hh
      simp [containsSub, hn]
  | c :: t => by
    rw [List.infix_cons_iff]
    simp only [containsSub, Bool.or_eq_true]
    rw [containsSub_iff n t, List.isPrefixOf_iff_prefix]

/-- Character closure for `splitlinesAux`: a property holding of every
non-boundary input character (and every buffered character) holds of every
character of every produced line. -/
theorem splitlinesAux_chars (P : Char → Prop) :
    ∀ (l acc : List Char), (∀ c ∈ l, isLineBreak c = false → P c) → (∀ c ∈ acc, P c) →
      ∀ s ∈ splitlinesAux l acc, ∀ c ∈ s, P c := by
  intro l acc
  induction l, acc using splitlinesAux.induct with
  | case1 =>
    intro hl hacc s hs c hc
    simp [splitlinesAux] at hs
  | case2 acc hacc0 =>
    intro hl hacc s hs c hc
    simp only [splitlinesAux, if_neg hacc0] at hs
    simp at hs
    subst hs
    exact hacc c (by simpa using hc)
  | case3 c0 acc hcond =>
    intro hl hacc s hs c hc
    simp only [splitlinesAux, if_pos hcond] at hs
    simp at hs
    subst hs
    exact hacc c (by simpa using hc)
  | case4 c0 acc hcond =>
    intro hl hacc s hs c hc
    simp only [splitlinesAux, if_neg hcond] at hs
    simp at hs
    subst hs
    simp at hc
    rcases hc with hc | hc
    · exact hacc c hc
    · subst hc
      exact hl c (by simp) (by simpa using hcond)
  | case5 rest acc ih =>
    intro hl hacc s hs c hc
    simp only [splitlinesAux, reduceIte] at hs
    rcases List.mem_cons.mp hs with h1 | h1
    · subst h1; exact hacc c (by simpa using hc)
    · exact ih (fun x hx hb => hl x (by simp [hx]) hb) (by simp) s h1 c hc
  | case6 c2 rest acc hn ih =>
    intro hl hacc s hs c hc
    simp only [splitlinesAux, reduceIte, if_neg hn] at hs
    rcases List.mem_cons.mp hs with h1 | h1
    · subst h1; exact hacc c (by simpa using hc)
    · exact ih (fun x hx hb => hl x (by simp at hx; simp [hx]) hb) (by simp) s h1 c hc
  | case7 c0 c2 rest acc hr hb ih =>
    intro hl hacc s hs c hc
    simp only [splitlinesAux, if_neg hr, if_pos hb] at hs
    rcases List.mem_cons.mp hs with h1 | h1
    · subst h1; exact hacc c (by simpa using hc)
    · exact ih (fun x hx hxb => hl x (by simp at hx; simp [hx]) hxb) (by simp) s h1 c hc
  | case8 c0 c2 rest acc hr hb ih =>
    intro hl hacc s hs c hc
    simp only [splitlinesAux, if_neg hr, if_neg hb] at hs
    refine ih (fun x hx hxb => hl x (by simp at hx; simp [hx]) hxb) ?_ s hs c hc
    intro x hx
    simp at hx
    rcases hx with hx | hx
    · subst hx
      exact hl x (by simp) (by simpa using hb)
    · exact hacc x hx

/-- A document without line-boundary characters splits into itself as the
single line (continuing from any accumulator). -/
theorem splitlinesAux_single :
    ∀ (l acc : List Char), (∀ c ∈ l, isLineBreak c = false) →
      splitlinesAux l acc =
        if acc.reverse ++ l = [] then [] else [acc.reverse ++ l] := by
  intro l acc
  induction l, acc using splitlinesAux.induct with
  | case1 =>
    intro _
    simp [splitlinesAux]
  | case2 acc hacc0 =>
    intro _
    have : acc.reverse ≠ [] := by simpa using hacc0
    simp [splitlinesAux, if_neg hacc0, this]
  | case3 c0 acc hcond =>
    intro hl
    exact absurd (hl c0 (by simp)) (by simp [hcond])
  | case4 c0 acc hcond =>
    intro _
    simp [splitlinesAux, if_neg hcond]
  | case5 rest acc ih =>
    intro hl
    exact absurd (hl '\r' (by simp)) (by simp [isLineBreak])
  | case6 c2 rest acc hn ih =>
    intro hl
    exact absurd (hl '\r' (by simp)) (by simp [isLineBreak])
  | case7 c0 c2 rest acc hr hb ih =>
    intro hl
    exact absurd (hl c0 (by simp)) (by simp [hb])
  | case8 c0 c2 rest acc hr hb ih =>
    intro hl
    have := ih (fun x hx => hl x (by simp at hx; simp [hx]))
    rw [splitlinesAux, if_neg hr, if_neg hb, this]
    simp

/-- Tag stripping is the identity on a line without `'<'`. -/
theorem stripTagsAux_no_lt : ∀ (l : List Char), '<' ∉ l → stripTagsAux l none = l
  | [], _ => rfl
  | c :: rest, h => by
    have hc : ¬(c = '<') := fun e => h (by simp [e])
    have hr : '<' ∉ rest := fun m => h (List.mem_cons_of_mem c m)
    simp only [stripTagsAux, if_neg hc]
    rw [stripTagsAux_no_lt rest hr]

/-- Character closure for `stripTagsAux`: every character of the output is
an input character or a buffered character. -/
theorem stripTagsAux_chars (P : Char → Prop) :
    ∀ (l : List Char) (buf : Option (List Char)),
      (∀ c ∈ l, P c) → (∀ b, buf = some b → ∀ c ∈ b, P c) →
      ∀ c ∈ stripTagsAux l buf, P c := by
  intro l buf
  induction l, buf using stripTagsAux.induct with
  | case1 =>
    intro _ _ c hc
    simp [stripTagsAux] at hc
  | case2 buf =>
    intro _ hbuf c hc
    exact hbuf buf rfl c (by simpa [stripTagsAux] using hc)
  | case3 rest ih =>
    intro hl hbuf c hc
    simp only [stripTagsAux, reduceIte] at hc
    refine ih (fun x hx => hl x (by simp [hx])) ?_ c hc
    intro b hb x hx
    simp at hb
    subst hb
    simp at hx
    subst hx
    exact hl '<' (by simp)
  | case4 c0 rest hc0 ih =>
    intro hl hbuf c hc
    simp only [stripTagsAux, if_neg hc0] at hc
    rcases List.mem_cons.mp hc with h1 | h1
    · subst h1; exact hl c (by simp)
    · exact ih (fun x hx => hl x (by simp [hx])) (by simp) c h1
  | case5 rest ih =>
    intro hl hbuf c hc
    simp only [stripTagsAux, reduceIte] at hc
    rcases List.mem_cons.mp hc with h1 | h1
    · subst h1
      exact hbuf ['<'] rfl '<' (by simp)
    · rcases List.mem_cons.mp h1 with h2 | h2
      · subst h2; exact hl '>' (by simp)
      · exact ih (fun x hx => hl x (by simp [hx])) (by simp) c h2
  | case6 rest buf hbuf1 ih =>
    intro hl hbuf c hc
    simp only [stripTagsAux, reduceIte, if_neg hbuf1] at hc
    exact ih (fun x hx => hl x (by simp [hx])) (by simp) c hc
  | case7 c0 rest buf hgt ih =>
    intro hl hbuf c hc
    simp only [stripTagsAux, if_neg hgt] at hc
    refine ih (fun x hx => hl x (by simp [hx])) ?_ c hc
    intro b hb x hx
    simp at hb
    subst hb
    rcases List.mem_append.mp hx with h1 | h1
    · exact hbuf buf rfl x h1
    · simp at h1
      subst h1
      exact hl x (by simp)

/-- `rstrip` yields a prefix of its input. -/
theorem rstrip_front (l : List Char) : rstrip l <+: l := by
  have h : (l.reverse.dropWhile isPySpace) <:+ l.reverse := List.dropWhile_suffix _
  have h2 := List.reverse_prefix.mpr h
  simpa [rstrip] using h2

/-- `strip` yields an infix of its input. -/
theorem strip_infixOf (l : List Char) : strip l <:+: l := by
  have h1 : lstrip l <:+ l := List.dropWhile_suffix _
  have h2 : strip l <+: lstrip l := rstrip_front _
  exact h2.isInfix.trans h1.isInfix

/-- Substring absence is inherited by infixes. -/
theorem containsSub_false_mono {n a b : List Char} (hab : a <:+: b)
    (hb : containsSub n b = false) : containsSub n a = false := by
  by_contra hne
  rw [Bool.not_eq_false] at hne
  have : n <:+: b := ((containsSub_iff n a).mp hne).trans hab
  rw [(containsSub_iff n b).mpr this] at hb
  exact Bool.noConfusion hb

/-- Every line kept by the cleaning loop arises from some raw input line:
it survived the skip filter, equals the strip-tagstrip-strip of that line,
and is non-empty. -/
theorem cleanLines_mem : ∀ (ls seen : List (List Char)) (x : List Char),
    x ∈ cleanLines seen ls →
    ∃ raw ∈ ls, skipLine (strip raw) = false ∧ x = strip (stripTags (strip raw)) ∧ x ≠ []
  | [], seen, x, hx => by simp [cleanLines] at hx
  | l :: ls, seen, x, hx => by
    simp only [cleanLines] at hx
    by_cases h1 : skipLine (strip l)
    · rw [if_pos h1] at hx
      obtain ⟨raw, hraw, h⟩ := cleanLines_mem ls seen x hx
      exact ⟨raw, List.mem_cons_of_mem _ hraw, h⟩
    · rw [if_neg h1] at hx
      by_cases h2 : strip (stripTags (strip l)) ≠ [] ∧ strip (stripTags (strip l)) ∉ seen
      · rw [if_pos h2] at hx
        rcases List.mem_cons.mp hx with h3 | h3
        · exact ⟨l, by simp, by simpa using h1, h3, h3 ▸ h2.1⟩
        · obtain ⟨raw, hraw, h⟩ := cleanLines_mem ls _ x h3
          exact ⟨raw, List.mem_cons_of_mem _ hraw, h⟩
      · rw [if_neg h2] at hx
        obtain ⟨raw, hraw, h⟩ := cleanLines_mem ls seen x hx
        exact ⟨raw, List.mem_cons_of_mem _ hraw, h⟩

/-- Character membership in a space join: every character is a space or
comes from one of the joined lists. -/
theorem joinSpace_mem : ∀ (ks : List (List Char)) (c : Char), c ∈ joinSpace ks →
    c = ' ' ∨ ∃ k ∈ ks, c ∈ k
  | [], c, hc => by simp [joinSpace] at hc
  | [k], c, hc => Or.inr ⟨k, by simp, by simpa [joinSpace] using hc⟩
  | k :: k2 :: ks, c, hc => by
    simp only [joinSpace] at hc
    rcases List.mem_append.mp hc with h | h
    · exact Or.inr ⟨k, by simp, h⟩
    · rcases List.mem_cons.mp h with h | h
      · exact Or.inl h
      · rcases joinSpace_mem (k2 :: ks) c h with h | ⟨k3, hk3, hck⟩
        · exact Or.inl h
        · exact Or.inr ⟨k3, List.mem_cons_of_mem _ hk3, hck⟩

/-- The marker `"-->"` cannot begin at a position that would carry it
across a separating space. -/
theorem arrow_no_pre (s : List Char) : ∀ (y : List Char),
    (chars "-->").isPrefixOf y = false →
    (chars "-->").isPrefixOf (y ++ ' ' :: s) = false
  | [], _ => by simp [chars, List.isPrefixOf]
  | [a], _ => by simp [chars, List.isPrefixOf]
  | [a, b], _ => by simp [chars, List.isPrefixOf]
  | a :: b :: d :: t, hy => by
    simp only [chars, List.isPrefixOf, List.cons_append] at hy ⊢
    simpa using hy

/-- Appending two arrow-free strings across a space separator stays
arrow-free. -/
theorem arrow_no_append (s : List Char) (hs : containsSub (chars "-->") s = false) :
    ∀ (x : List Char), containsSub (chars "-->") x = false →
    containsSub (chars "-->") (x ++ ' ' :: s) = false
  | [], _ => by
    have h := arrow_no_pre s [] (by simp [chars, List.isPrefixOf])
    simp only [List.nil_append] at h
    simp only [List.nil_append, containsSub, h, hs]
    simp
  | c :: x, hx => by
    simp only [containsSub, Bool.or_eq_false_iff] at hx
    simp only [List.cons_append, containsSub, Bool.or_eq_false_iff]
    constructor
    · exact arrow_no_pre s (c :: x) hx.1
    · exact arrow_no_append s hs x hx.2

/-- A space join of arrow-free lines is arrow-free. -/
theorem joinSpace_no_arrow : ∀ (ks : List (List Char)),
    (∀ k ∈ ks, containsSub (chars "-->") k = false) →
    containsSub (chars "-->") (joinSpace ks) = false
  | [], _ => by simp [joinSpace, containsSub, chars, List.isEmpty]
  | [k], h => by simpa [joinSpace] using h k (by simp)
  | k :: k2 :: ks, h => by
    have h1 := h k (by simp)
    have h2 := joinSpace_no_arrow (k2 :: ks) (fun x hx => h x (List.mem_cons_of_mem _ hx))
    simpa [joinSpace] using arrow_no_append (joinSpace (k2 :: ks)) h2 k h1

/-- A line that survives the skip filter contains no `"-->"`. -/
theorem skipLine_no_arrow {x : List Char} (h : skipLine x = false) :
    containsSub (chars "-->") x = false := by
  by_contra hne
  rw [Bool.not_eq_false] at hne
  simp [skipLine, hne] at h

/-! ## Claim C1: absence of timestamp-range markers in cleaned output -/

/-- Claim C1, counterexample: the claim "for every input subtitle document,
the string returned by clean_vtt contains no substring `-->`" is false as
stated.  The input line `-<x>->` contains no `-->`, so it passes the
timestamp filter; the tag `<x>` is then stripped, and the glued remainder
is exactly `-->`. -/
theorem clean_vtt_arrow_cex :
    containsSub (chars "-->") (clean_vtt (chars "-<x>->")) = true := by decide

/-- Claim C1, amended: for every input document containing no `'<'`
character (so that tag stripping cannot splice new text together), the
output of clean_vtt contains no substring `-->`. -/
theorem clean_vtt_no_arrow (d : List Char) (h : '<' ∉ d) :
    containsSub (chars "-->") (clean_vtt d) = false := by
  apply joinSpace_no_arrow
  intro k hk
  obtain ⟨raw, hraw, hskip, hkeq, hkne⟩ := cleanLines_mem _ _ _ hk
  have hrawlt : '<' ∉ raw := by
    intro hmem
    exact splitlinesAux_chars (fun c => c ≠ '<') d []
      (fun c hc _ e => h (e ▸ hc)) (by simp) raw hraw '<' hmem rfl
  have hstriplt : '<' ∉ strip raw := fun hm => hrawlt ((strip_infixOf raw).subset hm)
  have htags : stripTags (strip raw) = strip raw := stripTagsAux_no_lt _ hstriplt
  have harrow : containsSub (chars "-->") (strip raw) = false := skipLine_no_arrow hskip
  rw [hkeq, htags]
  exact containsSub_false_mono (strip_infixOf _) harrow

/-- Witness for the amended claim C1 at a concrete document. -/
theorem clean_vtt_no_arrow_witness :
    '<' ∉ chars "hello world\ngoodbye" ∧
    containsSub (chars "-->") (clean_vtt (chars "hello world\ngoodbye")) = false :=
  ⟨by decide, clean_vtt_no_arrow _ (by decide)⟩

/-! ## Claims C5 and C6: global first-occurrence deduplication and order -/

/-- The dedup loop computes first-occurrence filtering of the candidate
lines, relative to an already-seen set. -/
theorem cleanLines_eq_keepFirsts_aux :
    ∀ (ls seen : List (List Char)),
      cleanLines seen ls =
        keepFirsts ((candidateLines ls).filter (fun y => decide (y ∉ seen)))
  | [], seen => by simp [cleanLines, candidateLines, keepFirsts]
  | l :: ls, seen => by
    simp only [cleanLines, candidateLines]
    by_cases h1 : skipLine (strip l)
    · rw [if_pos h1, if_pos h1, cleanLines_eq_keepFirsts_aux ls seen]
    · rw [if_neg h1, if_neg h1]
      by_cases h2 : strip (stripTags (strip l)) = []
      · rw [if_neg (show ¬(strip (stripTags (strip l)) ≠ [] ∧
            strip (stripTags (strip l)) ∉ seen) by simp [h2]),
          if_neg (show ¬(strip (stripTags (strip l)) ≠ []) by simp [h2]),
          cleanLines_eq_keepFirsts_aux ls seen]
      · rw [if_pos h2]
        by_cases h3 : strip (stripTags (strip l)) ∈ seen
        · rw [if_neg (show ¬(strip (stripTags (strip l)) ≠ [] ∧
              strip (stripTags (strip l)) ∉ seen) by simp [h3]),
            List.filter_cons_of_neg (by simp [h3]),
            cleanLines_eq_keepFirsts_aux ls seen]
        · rw [if_pos ⟨h2, h3⟩, List.filter_cons_of_pos (by simp [h3]), keepFirsts,
            List.filter_filter, cleanLines_eq_keepFirsts_aux ls
              (strip (stripTags (strip l)) :: seen)]
          congr 2
          apply List.filter_congr
          intro a _
          have hiff : (a ∉ strip (stripTags (strip l)) :: seen) ↔
              (a ≠ strip (stripTags (strip l)) ∧ a ∉ seen) := by
            simp [List.mem_cons, not_or]
          rw [decide_eq_decide.mpr hiff, Bool.decide_and]

/-- `keepFirsts` is a sublist of its input: kept lines appear in input
order. -/
theorem keepFirsts_sublist : ∀ (l : List (List Char)), (keepFirsts l).Sublist l
  | [] => by simp [keepFirsts]
  | x :: xs => by
    rw [keepFirsts]
    exact ((keepFirsts_sublist _).trans (List.filter_sublist _)).cons₂ x
termination_by l => l.length
decreasing_by
  simp only [List.length_cons]
  exact Nat.lt_succ_of_le (List.length_filter_le _ _)

/-- `keepFirsts` never repeats a line. -/
theorem keepFirsts_nodup : ∀ (l : List (List Char)), (keepFirsts l).Nodup
  | [] => by simp [keepFirsts]
  | x :: xs => by
    rw [keepFirsts, List.nodup_cons]
    refine ⟨fun hmem => ?_, keepFirsts_nodup _⟩
    have hsub := (keepFirsts_sublist (xs.filter (fun y => y ≠ x))).subset hmem
    simp [List.mem_filter] at hsub
termination_by l => l.length
decreasing_by
  simp only [List.length_cons]
  exact Nat.lt_succ_of_le (List.length_filter_le _ _)

/-- Claim C5: the kept-line sequence of the cleaning transform equals the
first-occurrence filtering (byte-exact comparison against every previously
kept line, first occurrence keeping its position, later occurrences
dropped) of the candidate lines, and hence contains no duplicates. -/
theorem cleaned_global_dedup (d : List Char) :
    cleanedOf d = keepFirsts (candidatesOf d) ∧ (cleanedOf d).Nodup := by
  have h := cleanLines_eq_keepFirsts_aux (splitlines d) []
  have h0 : (candidateLines (splitlines d)).filter
      (fun y => decide (y ∉ ([] : List (List Char)))) = candidateLines (splitlines d) := by
    simp
  rw [h0] at h
  constructor
  · rw [cleanedOf, candidatesOf]; exact h
  · rw [cleanedOf, h]; exact keepFirsts_nodup _

/-- Claim C6: the cleaning transform's output is the space join of the
kept lines, the kept lines are a sublist of the candidate lines (so their
relative order matches the input order), and they are exactly the first
occurrences. -/
theorem cleaned_order (d : List Char) :
    clean_vtt d = joinSpace (keepFirsts (candidatesOf d)) ∧
    (cleanedOf d).Sublist (candidatesOf d) := by
  have h := cleanLines_eq_keepFirsts_aux (splitlines d) []
  have h0 : (candidateLines (splitlines d)).filter
      (fun y => decide (y ∉ ([] : List (List Char)))) = candidateLines (splitlines d) := by
    simp
  rw [h0] at h
  constructor
  · rw [clean_vtt, cleanedOf, h]; rfl
  · rw [cleanedOf, h]; exact keepFirsts_sublist _

/-! ## Claim C2: idempotence of the cleaning transform -/

/-- The head of a `dropWhile` output fails the dropped predicate. -/
theorem dropWhile_head?_false (p : Char → Bool) (m : List Char) (a : Char)
    (h : (m.dropWhile p).head? = some a) : p a = false := by
  have hne : m.dropWhile p ≠ [] := by
    intro e
    rw [e] at h
    simp at h
  have hh := List.head_dropWhile_not p m hne
  rw [List.head?_eq_head hne, Option.some.injEq] at h
  exact h ▸ hh

/-- `lstrip` is the identity when the head is not whitespace. -/
theorem lstrip_eq_self {l : List Char}
    (h : ∀ a, l.head? = some a → isPySpace a = false) : lstrip l = l := by
  cases l with
  | nil => rfl
  | cons c t =>
    rw [lstrip, List.dropWhile_cons, if_neg]
    simp [h c rfl]

/-- `rstrip` is the identity when the last character is not whitespace. -/
theorem rstrip_eq_self {l : List Char}
    (h : ∀ a, l.getLast? = some a → isPySpace a = false) : rstrip l = l := by
  have h2 : lstrip l.reverse = l.reverse :=
    lstrip_eq_self (fun a ha => h a (by rwa [List.head?_reverse] at ha))
  rw [rstrip]
  rw [lstrip] at h2
  rw [h2, List.reverse_reverse]

/-- `strip` is the identity when neither end is whitespace. -/
theorem strip_eq_self {l : List Char}
    (h1 : ∀ a, l.head? = some a → isPySpace a = false)
    (h2 : ∀ a, l.getLast? = some a → isPySpace a = false) : strip l = l := by
  rw [strip, lstrip_eq_self h1]
  exact rstrip_eq_self h2

/-- A nonempty suffix has the same last element as the whole list. -/
theorem suffix_getLast?_eq {x y : List Char} (h : x <:+ y) (hx : x ≠ []) :
    x.getLast? = y.getLast? := by
  obtain ⟨pre, rfl⟩ := h
  rw [List.getLast?_append]
  cases hgl : x.getLast? with
  | none =>
    exact absurd (by simpa using hgl) hx
  | some b => simp

/-- The first character of a stripped string is not whitespace. -/
theorem strip_head?_false (l : List Char) (a : Char)
    (h : (strip l).head? = some a) : isPySpace a = false := by
  rw [strip, rstrip] at h
  rw [List.head?_reverse] at h
  have hX : (lstrip l).reverse.dropWhile isPySpace ≠ [] := by
    intro e
    rw [e] at h
    simp at h
  rw [suffix_getLast?_eq (List.dropWhile_suffix _) hX] at h
  rw [List.getLast?_reverse] at h
  exact dropWhile_head?_false isPySpace l a (by rwa [lstrip] at h)

/-- The last character of a stripped string is not whitespace. -/
theorem strip_getLast?_false (l : List Char) (a : Char)
    (h : (strip l).getLast? = some a) : isPySpace a = false := by
  rw [strip, rstrip, List.getLast?_reverse] at h
  exact dropWhile_head?_false isPySpace (lstrip l).reverse a h

/-- `strip` is idempotent. -/
theorem strip_idem (l : List Char) : strip (strip l) = strip l :=
  strip_eq_self (strip_head?_false l) (strip_getLast?_false l)

/-- Every line kept by `clean_vtt` is nonempty and fixed by `strip`. -/
theorem cleaned_strip_fixed (d : List Char) :
    ∀ k ∈ cleanedOf d, k ≠ [] ∧ strip k = k := by
  intro k hk
  obtain ⟨raw, _, _, hkeq, hkne⟩ := cleanLines_mem _ _ _ hk
  exact ⟨hkne, by rw [hkeq]; exact strip_idem _⟩

/-- Every character of every line kept by `clean_vtt` is a non-boundary
character. -/
theorem cleaned_no_break (d : List Char) :
    ∀ k ∈ cleanedOf d, ∀ c ∈ k, isLineBreak c = false := by
  intro k hk c hc
  obtain ⟨raw, hraw, _, hkeq, _⟩ := cleanLines_mem _ _ _ hk
  have hrawnb : ∀ c ∈ raw, isLineBreak c = false :=
    splitlinesAux_chars (fun c => isLineBreak c = false) d []
      (fun _ _ hb => hb) (by simp) raw hraw
  have hstripnb : ∀ c ∈ strip raw, isLineBreak c = false :=
    fun c hc => hrawnb c ((strip_infixOf raw).subset hc)
  have htagnb : ∀ c ∈ stripTags (strip raw), isLineBreak c = false :=
    stripTagsAux_chars (fun c => isLineBreak c = false) (strip raw) none hstripnb
      (by simp)
  rw [hkeq] at hc
  exact htagnb c ((strip_infixOf _).subset hc)

/-- The output of `clean_vtt` contains no line-boundary characters. -/
theorem clean_vtt_no_break (d : List Char) :
    ∀ c ∈ clean_vtt d, isLineBreak c = false := by
  intro c hc
  rcases joinSpace_mem _ c hc with h | ⟨k, hk, hck⟩
  · subst h; decide
  · exact cleaned_no_break d k hk c hck

/-- The head of a space join of nonempty stripped lines is not
whitespace. -/
theorem joinSpace_head_no_space : ∀ (ks : List (List Char)),
    (∀ k ∈ ks, k ≠ [] ∧ strip k = k) →
    ∀ a, (joinSpace ks).head? = some a → isPySpace a = false
  | [], _, a, h => by simp [joinSpace] at h
  | [k], hks, a, h => by
    obtain ⟨hne, hfix⟩ := hks k (by simp)
    simp only [joinSpace] at h
    exact strip_head?_false k a (by rwa [hfix])
  | k :: k2 :: ks, hks, a, h => by
    obtain ⟨hne, hfix⟩ := hks k (by simp)
    simp only [joinSpace] at h
    rw [List.head?_append_of_ne_nil _ hne] at h
    exact strip_head?_false k a (by rwa [hfix])

/-- The last character of a space join of nonempty stripped lines is not
whitespace. -/
theorem joinSpace_last_no_space : ∀ (ks : List (List Char)),
    (∀ k ∈ ks, k ≠ [] ∧ strip k = k) →
    ∀ a, (joinSpace ks).getLast? = some a → isPySpace a = false
  | [], _, a, h => by simp [joinSpace] at h
  | [k], hks, a, h => by
    obtain ⟨hne, hfix⟩ := hks k (by simp)
    simp only [joinSpace] at h
    exact strip_getLast?_false k a (by rwa [hfix])
  | k :: k2 :: ks, hks, a, h => by
    simp only [joinSpace] at h
    rw [List.getLast?_append] at h
    have hj : joinSpace (k2 :: ks) ≠ [] := by
      intro e
      obtain ⟨hne2, _⟩ := hks k2 (by simp)
      cases hk2 : k2 with
      | nil => exact hne2 hk2
      | cons c t =>
        cases hks2 : ks with
        | nil =>
          rw [hks2] at e
          simp only [joinSpace] at e
          rw [hk2] at e
          exact List.noConfusion e
        | cons k3 ks3 =>
          rw [hks2] at e
          simp only [joinSpace] at e
          rw [hk2] at e
          exact List.noConfusion e
    have hlast : (' ' :: joinSpace (k2 :: ks)).getLast? = (joinSpace (k2 :: ks)).getLast? := by
      have : (' ' :: joinSpace (k2 :: ks)) = [' '] ++ joinSpace (k2 :: ks) := by simp
      rw [this, ← suffix_getLast?_eq (List.suffix_append [' '] _) hj]
    rw [hlast] at h
    cases hgl : (joinSpace (k2 :: ks)).getLast? with
    | none =>
      have := (by simpa using hgl : joinSpace (k2 :: ks) = [])
      exact absurd this hj
    | some b =>
      rw [hgl] at h
      simp only [Option.or_some] at h
      have hab : b = a := by simpa using h
      subst hab
      exact joinSpace_last_no_space (k2 :: ks)
        (fun x hx => hks x (List.mem_cons_of_mem _ hx)) b hgl

/-- The output of `clean_vtt` is fixed by `strip`. -/
theorem clean_vtt_strip_fixed (d : List Char) : strip (clean_vtt d) = clean_vtt d :=
  strip_eq_self
    (joinSpace_head_no_space (cleanedOf d) (cleaned_strip_fixed d))
    (joinSpace_last_no_space (cleanedOf d) (cleaned_strip_fixed d))

/-- Claim C2, counterexample: cleaning is not idempotent as claimed.  For
the document `<c>WEBVTTa</c>`, the first pass strips the tags and keeps the
line `WEBVTTa`; re-cleaning that output drops it (it now starts with the
`WEBVTT` header token), giving the empty string instead. -/
theorem clean_vtt_idem_cex :
    clean_vtt (clean_vtt (chars "<c>WEBVTTa</c>")) ≠ clean_vtt (chars "<c>WEBVTTa</c>") := by
  decide

/-- Claim C2, amended: re-cleaning a cleaned transcript yields it back
provided that transcript, viewed as a single line, is not itself filtered
(empty, header-prefixed, containing `-->`, or all digits) and is unchanged
by tag stripping.  This is the spec's side condition "treated as a document
with no headers/timestamps ... and no markup tags remain" made precise. -/
theorem clean_vtt_idem (d : List Char)
    (h : clean_vtt d = [] ∨
      (skipLine (clean_vtt d) = false ∧ stripTags (clean_vtt d) = clean_vtt d)) :
    clean_vtt (clean_vtt d) = clean_vtt d := by
  rcases h with h | ⟨hskip, htags⟩
  · rw [h]; rfl
  · have hne : clean_vtt d ≠ [] := by
      intro e
      rw [e] at hskip
      simp [skipLine, List.isEmpty] at hskip
    have hsfix := clean_vtt_strip_fixed d
    have hsplit : splitlines (clean_vtt d) = [clean_vtt d] := by
      rw [splitlines, splitlinesAux_single _ [] (clean_vtt_no_break d)]
      simp [hne]
    show joinSpace (cleanLines [] (splitlines (clean_vtt d))) = clean_vtt d
    rw [hsplit]
    simp only [cleanLines]
    rw [hsfix, htags, hsfix]
    rw [if_neg (by simp [hskip]), if_pos ⟨hne, by simp⟩]
    simp [cleanLines, joinSpace]

/-- Witness for the amended claim C2 at a concrete document. -/
theorem clean_vtt_idem_witness :
    (clean_vtt (chars "hi there\nsecond line\nhi there") = [] ∨
      (skipLine (clean_vtt (chars "hi there\nsecond line\nhi there")) = false ∧
       stripTags (clean_vtt (chars "hi there\nsecond line\nhi there")) =
         clean_vtt (chars "hi there\nsecond line\nhi there"))) ∧
    clean_vtt (clean_vtt (chars "hi there\nsecond line\nhi there")) =
      clean_vtt (chars "hi there\nsecond line\nhi there") :=
  ⟨by decide, clean_vtt_idem _ (by decide)⟩

/-! ## Claim C8: totality of the cleaning transform -/

/-- Claim C8: the cleaning transform is total — every input string,
including the empty one, produces a (possibly empty) result — and a
document holding only the WEBVTT/Kind:/Language: header lines cleans to
the empty string. -/
theorem clean_vtt_total :
    (∀ d : List Char, ∃ r, clean_vtt d = r) ∧
    clean_vtt [] = [] ∧
    clean_vtt (chars "WEBVTT\nKind: captions\nLanguage: en\n") = [] :=
  ⟨fun d => ⟨clean_vtt d, rfl⟩, by decide, by decide⟩

/-! ## Claim C3: the minimum-content gate -/

/-- Claim C3: the run aborts with a non-zero exit status, with the
summarizer never invoked and the outcome independent of the external
process, exactly when the cleaned transcript is shorter than 50
characters. -/
theorem main_gate_iff (info : List (List Char × List Char)) (raw model : List Char)
    (run : List Char → List Char → ProcResult) :
    ((mainRun info raw model run).exitCode ≠ 0 ∧
     (mainRun info raw model run).summarizerCall = none ∧
     ∀ run2, mainRun info raw model run2 = mainRun info raw model run)
    ↔ (clean_vtt raw).length < 50 := by
  constructor
  · rintro ⟨h1, h2, h3⟩
    by_contra hlen
    simp only [mainRun, if_neg hlen] at h2
    split at h2 <;> simp at h2
  · intro hlen
    refine ⟨?_, ?_, fun run2 => ?_⟩ <;> simp [mainRun, if_pos hlen]

/-! ## Claim C4: the truncation policy -/

/-- Claim C4: past the gate, a cleaned transcript longer than 100000
characters is handed to the summarizer as exactly its first 100000
characters and the truncation notice is printed; a transcript of at most
100000 characters is handed over unchanged. -/
theorem main_truncation (info : List (List Char × List Char)) (raw model : List Char)
    (run : List Char → List Char → ProcResult)
    (h : 50 ≤ (clean_vtt raw).length) :
    (100000 < (clean_vtt raw).length →
      (mainRun info raw model run).summarizerCall =
        some (dictGetD info (chars "title") (chars "Unknown Title"),
          (clean_vtt raw).take 100000) ∧
      truncMsg ∈ (mainRun info raw model run).stderrLines) ∧
    ((clean_vtt raw).length ≤ 100000 →
      (mainRun info raw model run).summarizerCall =
        some (dictGetD info (chars "title") (chars "Unknown Title"), clean_vtt raw)) := by
  have hgate : ¬ (clean_vtt raw).length < 50 := by omega
  constructor
  · intro hbig
    have htr : truncatedSubs (clean_vtt raw) = (clean_vtt raw).take 100000 := by
      rw [truncatedSubs, if_pos hbig]
    simp only [mainRun, if_neg hgate]
    split <;> simp [htr, hbig]
  · intro hsmall
    have hnb : ¬ (100000 < (clean_vtt raw).length) := by omega
    have htr : truncatedSubs (clean_vtt raw) = clean_vtt raw := by
      rw [truncatedSubs, if_neg hnb]
    simp only [mainRun, if_neg hgate]
    split <;> simp [htr]

/-- Witness for claim C4 at a concrete transcript between the two bounds. -/
theorem main_truncation_witness :
    50 ≤ (clean_vtt wDoc).length ∧
    ((100000 < (clean_vtt wDoc).length →
      (mainRun [] wDoc [] stubOk).summarizerCall =
        some (dictGetD [] (chars "title") (chars "Unknown Title"),
          (clean_vtt wDoc).take 100000) ∧
      truncMsg ∈ (mainRun [] wDoc [] stubOk).stderrLines) ∧
    ((clean_vtt wDoc).length ≤ 100000 →
      (mainRun [] wDoc [] stubOk).summarizerCall =
        some (dictGetD [] (chars "title") (chars "Unknown Title"), clean_vtt wDoc))) :=
  ⟨by decide, main_truncation [] wDoc [] stubOk (by decide)⟩

/-! ## Claim C7: non-zero exit of the generation process is fatal -/

/-- Claim C7: past the gate, if the external text-generation process exits
non-zero, the run exits with status 1, prints no summary, and some stderr
line contains the process's stderr text; if it exits zero, the run
succeeds (exit status 0) with the stripped stdout as the summary. -/
theorem main_generation (info : List (List Char × List Char)) (raw model : List Char)
    (run : List Char → List Char → ProcResult)
    (h : 50 ≤ (clean_vtt raw).length) :
    ((run (buildPrompt (dictGetD info (chars "title") (chars "Unknown Title"))
        (truncatedSubs (clean_vtt raw))) model).returncode ≠ 0 →
      (mainRun info raw model run).exitCode = 1 ∧
      (mainRun info raw model run).stdoutText = none ∧
      ∃ line ∈ (mainRun info raw model run).stderrLines,
        (run (buildPrompt (dictGetD info (chars "title") (chars "Unknown Title"))
          (truncatedSubs (clean_vtt raw))) model).stderr <:+: line) ∧
    ((run (buildPrompt (dictGetD info (chars "title") (chars "Unknown Title"))
        (truncatedSubs (clean_vtt raw))) model).returncode = 0 →
      (mainRun info raw model run).exitCode = 0 ∧
      (mainRun info raw model run).stdoutText =
        some (strip (run (buildPrompt (dictGetD info (chars "title") (chars "Unknown Title"))
          (truncatedSubs (clean_vtt raw))) model).stdout)) := by
  have hgate : ¬ (clean_vtt raw).length < 50 := by omega
  by_cases hrc : (run (buildPrompt (dictGetD info (chars "title") (chars "Unknown Title"))
      (truncatedSubs (clean_vtt raw))) model).returncode = 0
  · constructor
    · intro hne
      exact absurd hrc hne
    · intro _
      simp only [mainRun, if_neg hgate, summarize_with_claude]
      rw [if_neg (not_not_intro hrc)]
      simp
  · constructor
    · intro _
      simp only [mainRun, if_neg hgate, summarize_with_claude]
      rw [if_pos hrc]
      refine ⟨rfl, rfl, chars "Error calling Claude: " ++
        (run (buildPrompt (dictGetD info (chars "title") (chars "Unknown Title"))
          (truncatedSubs (clean_vtt raw))) model).stderr, by simp, ?_⟩
      exact (List.suffix_append _ _).isInfix
    · intro h0
      exact absurd h0 hrc

/-- Witness for claim C7 with a stub process failing with stderr
`rate limited`. -/
theorem main_generation_witness :
    50 ≤ (clean_vtt wDoc).length ∧
    (((stubErr (buildPrompt (dictGetD [] (chars "title") (chars "Unknown Title"))
        (truncatedSubs (clean_vtt wDoc))) []).returncode ≠ 0 →
      (mainRun [] wDoc [] stubErr).exitCode = 1 ∧
      (mainRun [] wDoc [] stubErr).stdoutText = none ∧
      ∃ line ∈ (mainRun [] wDoc [] stubErr).stderrLines,
        (stubErr (buildPrompt (dictGetD [] (chars "title") (chars "Unknown Title"))
          (truncatedSubs (clean_vtt wDoc))) []).stderr <:+: line) ∧
    ((stubErr (buildPrompt (dictGetD [] (chars "title") (chars "Unknown Title"))
        (truncatedSubs (clean_vtt wDoc))) []).returncode = 0 →
      (mainRun [] wDoc [] stubErr).exitCode = 0 ∧
      (mainRun [] wDoc [] stubErr).stdoutText =
        some (strip (stubErr (buildPrompt (dictGetD [] (chars "title") (chars "Unknown Title"))
          (truncatedSubs (clean_vtt wDoc))) []).stdout))) :=
  ⟨by decide, main_generation [] wDoc [] stubErr (by decide)⟩

/-! ## Claim C9: successful output is stripped stdout -/

/-- Claim C9: when the external process exits with status zero, the
summary returned is the process's standard output with surrounding
whitespace stripped. -/
theorem summarize_strips_stdout (title subs model : List Char)
    (run : List Char → List Char → ProcResult)
    (h : (run (buildPrompt title subs) model).returncode = 0) :
    summarize_with_claude title subs model run =
      Except.ok (strip (run (buildPrompt title subs) model).stdout) := by
  simp only [summarize_with_claude]
  rw [if_neg (by simp [h])]

/-- Witness for claim C9: a stub whose padded stdout is returned
stripped. -/
theorem summarize_strips_stdout_witness :
    (stubOk (buildPrompt [] []) []).returncode = 0 ∧
    summarize_with_claude [] [] [] stubOk =
      Except.ok (strip (stubOk (buildPrompt [] []) []).stdout) :=
  ⟨by decide, summarize_strips_stdout [] [] [] stubOk (by decide)⟩

/-! ## Claim C10: missing title falls back to a default -/

/-- Claim C10: when the metadata dictionary has no `title` key, the
pipeline proceeds with the literal fallback title `Unknown Title`, which is
embedded in the prompt built for the summarizer. -/
theorem main_title_fallback (info : List (List Char × List Char)) (raw model : List Char)
    (run : List Char → List Char → ProcResult)
    (h1 : info.lookup (chars "title") = none)
    (h2 : 50 ≤ (clean_vtt raw).length) :
    ∃ subs, (mainRun info raw model run).summarizerCall =
      some (chars "Unknown Title", subs) ∧
      chars "Unknown Title" <:+: buildPrompt (chars "Unknown Title") subs := by
  have htitle : dictGetD info (chars "title") (chars "Unknown Title") =
      chars "Unknown Title" := by
    rw [dictGetD, h1]
  have hgate : ¬ (clean_vtt raw).length < 50 := by omega
  refine ⟨truncatedSubs (clean_vtt raw), ?_, ?_⟩
  · simp only [mainRun, if_neg hgate, htitle]
    split <;> rfl
  · rw [buildPrompt]
    exact ((List.infix_append _ _ _).trans
      (List.prefix_append _ _).isInfix).trans (List.prefix_append _ _).isInfix

/-- Witness for claim C10 with an empty metadata dictionary. -/
theorem main_title_fallback_witness :
    ([] : List (List Char × List Char)).lookup (chars "title") = none ∧
    50 ≤ (clean_vtt wDoc).length ∧
    ∃ subs, (mainRun [] wDoc [] stubOk).summarizerCall =
      some (chars "Unknown Title", subs) ∧
      chars "Unknown Title" <:+: buildPrompt (chars "Unknown Title") subs :=
  ⟨rfl, by decide, main_title_fallback [] wDoc [] stubOk rfl (by decide)⟩

end Yts
